import Mathlib

/-!
Shallow embedding of the UVM assembler (`src/assembler.py`) and interpreter
(`src/interpreter.py`): the four instruction classes with their range-checked
constructors and `to_bytes` encoders, and the `VirtualMachine` with its
`read_bits` bit-field decoder, the four `execute_*` routines, `step` and `run`.
Machine integers are modelled as `Nat`/`Int` with explicit `% 2^w`; Python's
`int.to_bytes` overflow and list `IndexError` are modelled with `Option`, and
runtime faults of the interpreter with `Except`.
-/

deriving instance DecidableEq for Except

namespace UVM

/-- Little-endian byte list of a natural number, exactly `n` bytes, low byte
first: the byte content produced by Python `int.to_bytes(n, 'little')` when the
value fits. -/
def natToBytesLE : Nat → Nat → List Nat
  | _, 0 => []
  | v, n + 1 => v % 256 :: natToBytesLE (v / 256) n

/-- Python `int.to_bytes(n, byteorder='little')`: raises `OverflowError`
(modelled as `none`) when the value does not fit in `n` bytes. -/
def intToBytes (v n : Nat) : Option (List Nat) :=
  if v < 2 ^ (8 * n) then some (natToBytesLE v n) else none

/-- Python `int.from_bytes(bytes, byteorder='little')`. -/
def fromBytesLE : List Nat → Nat
  | [] => 0
  | b :: rest => b + 256 * fromBytesLE rest

/-- Bit number `k` of a little-endian byte buffer: bit `k % 8` of byte `k / 8`
(reading past the end yields zero bits). -/
def byteBit (buffer : List Nat) (k : Nat) : Bool :=
  ((buffer.get? (k / 8)).getD 0).testBit (k % 8)

/-- Structured form of the `ValueError` raised by the instruction constructors
in `assembler.py`: the offending field name, its value, and the allowed
inclusive range, exactly the data interpolated into the message strings. -/
inductive AsmError where
  | range (field : String) (value : Int) (lo hi : Int)
  deriving Repr, DecidableEq

/-- `LoadConstInstruction`: opcode 111, an 11-bit constant and a 26-bit
address. -/
structure LoadConstInstruction where
  opcode : Nat
  constant : Nat
  address : Nat
  deriving Repr, DecidableEq

/-- `LoadConstInstruction.__init__`: stores opcode 111 and checks the operand
ranges in source order, raising on the first violation. -/
def mkLoadConst (constant address : Int) : Except AsmError LoadConstInstruction :=
  if ¬ (0 ≤ constant ∧ constant < 2048) then
    .error (.range "constant" constant 0 2047)
  else if ¬ (0 ≤ address ∧ address < 67108864) then
    .error (.range "address" address 0 67108863)
  else
    .ok ⟨111, constant.toNat, address.toNat⟩

/-- `LoadConstInstruction.to_bytes`: A(0-6)=opcode, B(7-17)=constant,
C(18-43)=address, serialized as 6 little-endian bytes. -/
def LoadConstInstruction.to_bytes (i : LoadConstInstruction) : Option (List Nat) :=
  intToBytes (i.opcode ||| (i.constant <<< 7) ||| (i.address <<< 18)) 6

/-- `ReadMemInstruction`: opcode 40, an 8-bit offset and two 26-bit
addresses. -/
structure ReadMemInstruction where
  opcode : Nat
  offset : Nat
  src_addr : Nat
  dst_addr : Nat
  deriving Repr, DecidableEq

/-- `ReadMemInstruction.__init__` with its range checks in source order. -/
def mkReadMem (offset src_addr dst_addr : Int) : Except AsmError ReadMemInstruction :=
  if ¬ (0 ≤ offset ∧ offset < 256) then
    .error (.range "offset" offset 0 255)
  else if ¬ (0 ≤ src_addr ∧ src_addr < 67108864) then
    .error (.range "src_addr" src_addr 0 67108863)
  else if ¬ (0 ≤ dst_addr ∧ dst_addr < 67108864) then
    .error (.range "dst_addr" dst_addr 0 67108863)
  else
    .ok ⟨40, offset.toNat, src_addr.toNat, dst_addr.toNat⟩

/-- `ReadMemInstruction.to_bytes`: A(0-6)=opcode, B(7-14)=offset,
C(15-40)=src_addr, D(41-66)=dst_addr, 9 little-endian bytes. -/
def ReadMemInstruction.to_bytes (i : ReadMemInstruction) : Option (List Nat) :=
  intToBytes (i.opcode ||| (i.offset <<< 7) ||| (i.src_addr <<< 15) ||| (i.dst_addr <<< 41)) 9

/-- `WriteMemInstruction`: opcode 101 and two 26-bit addresses. -/
structure WriteMemInstruction where
  opcode : Nat
  src_addr : Nat
  dst_addr : Nat
  deriving Repr, DecidableEq

/-- `WriteMemInstruction.__init__` with its range checks in source order. -/
def mkWriteMem (src_addr dst_addr : Int) : Except AsmError WriteMemInstruction :=
  if ¬ (0 ≤ src_addr ∧ src_addr < 67108864) then
    .error (.range "src_addr" src_addr 0 67108863)
  else if ¬ (0 ≤ dst_addr ∧ dst_addr < 67108864) then
    .error (.range "dst_addr" dst_addr 0 67108863)
  else
    .ok ⟨101, src_addr.toNat, dst_addr.toNat⟩

/-- `WriteMemInstruction.to_bytes`: A(0-6)=opcode, B(7-32)=src_addr,
C(33-58)=dst_addr, 8 little-endian bytes. -/
def WriteMemInstruction.to_bytes (i : WriteMemInstruction) : Option (List Nat) :=
  intToBytes (i.opcode ||| (i.src_addr <<< 7) ||| (i.dst_addr <<< 33)) 8

/-- `GTEInstruction`: opcode 68, two 8-bit offsets and three 26-bit
addresses. -/
structure GTEInstruction where
  opcode : Nat
  offset1 : Nat
  addr1 : Nat
  addr2 : Nat
  res_addr : Nat
  offset2 : Nat
  deriving Repr, DecidableEq

/-- `GTEInstruction.__init__` with its range checks in source order
(offset1, offset2, addr1, addr2, res_addr). -/
def mkGTE (offset1 addr1 addr2 res_addr offset2 : Int) : Except AsmError GTEInstruction :=
  if ¬ (0 ≤ offset1 ∧ offset1 < 256) then
    .error (.range "offset1" offset1 0 255)
  else if ¬ (0 ≤ offset2 ∧ offset2 < 256) then
    .error (.range "offset2" offset2 0 255)
  else if ¬ (0 ≤ addr1 ∧ addr1 < 67108864) then
    .error (.range "addr1" addr1 0 67108863)
  else if ¬ (0 ≤ addr2 ∧ addr2 < 67108864) then
    .error (.range "addr2" addr2 0 67108863)
  else if ¬ (0 ≤ res_addr ∧ res_addr < 67108864) then
    .error (.range "res_addr" res_addr 0 67108863)
  else
    .ok ⟨68, offset1.toNat, addr1.toNat, addr2.toNat, res_addr.toNat, offset2.toNat⟩

/-- `GTEInstruction.to_bytes`: A(0-6)=opcode, B(7-14)=offset1, C(15-40)=addr1,
D(41-66)=addr2, E(67-92)=res_addr, F(93-100)=offset2, 13 little-endian
bytes. -/
def GTEInstruction.to_bytes (i : GTEInstruction) : Option (List Nat) :=
  intToBytes
    (i.opcode ||| (i.offset1 <<< 7) ||| (i.addr1 <<< 15) ||| (i.addr2 <<< 41) |||
      (i.res_addr <<< 67) ||| (i.offset2 <<< 93)) 13

/-- Runtime faults of the interpreter: the `ValueError` for an unknown opcode
(with the opcode and the PC interpolated into the message), and Python's
`IndexError` on a data-memory access outside the list. -/
inductive VMError where
  | unknownOpcode (opcode : Nat) (pos : Nat)
  | indexError
  deriving Repr, DecidableEq

/-- `VirtualMachine` state: data memory (a Python list of ints), code memory
(bytes), and the program counter in bytes. -/
structure VirtualMachine where
  data_memory : List Int
  code_memory : List Nat
  pc : Nat
  deriving Repr, DecidableEq

/-- `VirtualMachine.__init__(memory_size)`: zero-filled data memory, empty code
memory, PC 0. -/
def VirtualMachine.init (memory_size : Nat) : VirtualMachine :=
  { data_memory := List.replicate memory_size 0, code_memory := [], pc := 0 }

/-- `VirtualMachine.load_program`: installs the binary and resets PC to 0. -/
def load_program (vm : VirtualMachine) (binary_code : List Nat) : VirtualMachine :=
  { vm with code_memory := binary_code, pc := 0 }

/-- `VirtualMachine.read_bits(start_bit, length)`: slice the spanned bytes at
the current PC (Python slicing silently truncates at the end of the buffer),
interpret them little-endian, shift and mask. -/
def read_bits (vm : VirtualMachine) (start_bit length : Nat) : Nat :=
  let start_byte := start_bit / 8
  let end_byte := (start_bit + length - 1) / 8 + 1
  let bytes_to_read := (vm.code_memory.drop (vm.pc + start_byte)).take (end_byte - start_byte)
  let value := fromBytesLE bytes_to_read
  let bit_offset := start_bit % 8
  let mask := (1 <<< length) - 1
  (value >>> bit_offset) &&& mask

/-- Python list read `m[i]` with an int index: a negative index counts from the
end, and any index outside `[-len, len)` raises `IndexError` (`none`). -/
def pyGet (m : List Int) (i : Int) : Option Int :=
  let j : Int := if i < 0 then (m.length : Int) + i else i
  if 0 ≤ j ∧ j < (m.length : Int) then m.get? j.toNat else none

/-- Python list write `m[i] = v` with an int index, with the same index rules
as `pyGet`. -/
def pySet (m : List Int) (i v : Int) : Option (List Int) :=
  let j : Int := if i < 0 then (m.length : Int) + i else i
  if 0 ≤ j ∧ j < (m.length : Int) then some (m.set j.toNat v) else none

/-- `VirtualMachine.execute_load_const`: decode the constant and address fields
and store the constant, advancing PC by 6. -/
def execute_load_const (vm : VirtualMachine) : Except VMError VirtualMachine :=
  let constant := read_bits vm 7 11
  let address := read_bits vm 18 26
  match pySet vm.data_memory (address : Int) (constant : Int) with
  | none => .error .indexError
  | some m => .ok { vm with data_memory := m, pc := vm.pc + 6 }

/-- `VirtualMachine.execute_read_mem`: indirect load through the base stored at
`src_addr`, result stored at `dst_addr`, PC advanced by 9. -/
def execute_read_mem (vm : VirtualMachine) : Except VMError VirtualMachine :=
  let offset := read_bits vm 7 8
  let src_addr := read_bits vm 15 26
  let dst_addr := read_bits vm 41 26
  match pyGet vm.data_memory (src_addr : Int) with
  | none => .error .indexError
  | some base =>
    let effective_addr := base + (offset : Int)
    match pyGet vm.data_memory effective_addr with
    | none => .error .indexError
    | some value =>
      match pySet vm.data_memory (dst_addr : Int) value with
      | none => .error .indexError
      | some m => .ok { vm with data_memory := m, pc := vm.pc + 9 }

/-- `VirtualMachine.execute_write_mem`: direct copy from `src_addr` to
`dst_addr`, PC advanced by 8. -/
def execute_write_mem (vm : VirtualMachine) : Except VMError VirtualMachine :=
  let src_addr := read_bits vm 7 26
  let dst_addr := read_bits vm 33 26
  match pyGet vm.data_memory (src_addr : Int) with
  | none => .error .indexError
  | some value =>
    match pySet vm.data_memory (dst_addr : Int) value with
    | none => .error .indexError
    | some m => .ok { vm with data_memory := m, pc := vm.pc + 8 }

/-- `VirtualMachine.execute_gte`: compare `memory[memory[addr1] + offset1]`
with `memory[addr2]` and store 1 or 0 at `memory[memory[res_addr] + offset2]`,
PC advanced by 13; reads happen in source order. -/
def execute_gte (vm : VirtualMachine) : Except VMError VirtualMachine :=
  let offset1 := read_bits vm 7 8
  let addr1 := read_bits vm 15 26
  let addr2 := read_bits vm 41 26
  let res_addr := read_bits vm 67 26
  let offset2 := read_bits vm 93 8
  match pyGet vm.data_memory (addr1 : Int) with
  | none => .error .indexError
  | some base1 =>
    let effective_addr1 := base1 + (offset1 : Int)
    match pyGet vm.data_memory (res_addr : Int) with
    | none => .error .indexError
    | some baseR =>
      let effective_res_addr := baseR + (offset2 : Int)
      match pyGet vm.data_memory effective_addr1 with
      | none => .error .indexError
      | some operand1 =>
        match pyGet vm.data_memory (addr2 : Int) with
        | none => .error .indexError
        | some operand2 =>
          let result : Int := if operand1 ≥ operand2 then 1 else 0
          match pySet vm.data_memory effective_res_addr result with
          | none => .error .indexError
          | some m => .ok { vm with data_memory := m, pc := vm.pc + 13 }

/-- `VirtualMachine.step`: `ok none` when PC has reached the end of the code,
otherwise dispatch on the 7-bit opcode at PC; an unmatched opcode is the fatal
unknown-opcode `ValueError` carrying the opcode and the PC. -/
def step (vm : VirtualMachine) : Except VMError (Option VirtualMachine) :=
  if vm.code_memory.length ≤ vm.pc then .ok none
  else
    let opcode := read_bits vm 0 7
    if opcode = 111 then (execute_load_const vm).map some
    else if opcode = 40 then (execute_read_mem vm).map some
    else if opcode = 101 then (execute_write_mem vm).map some
    else if opcode = 68 then (execute_gte vm).map some
    else .error (.unknownOpcode opcode vm.pc)

/-- Fuel-indexed unfolding of the `while self.pc < len(self.code_memory)` loop
of `VirtualMachine.run`. -/
def runAux : Nat → VirtualMachine → Except VMError VirtualMachine
  | 0, vm => .ok vm
  | fuel + 1, vm =>
    match step vm with
    | .error e => .error e
    | .ok none => .ok vm
    | .ok (some vm') => runAux fuel vm'

/-- `VirtualMachine.run`: every successful step advances PC by at least 6
bytes, so `length + 1` iterations always reach the halt condition. -/
def run (vm : VirtualMachine) : Except VMError VirtualMachine :=
  runAux (vm.code_memory.length + 1) vm

/-- Reachability by zero or more successful (non-halting) steps. -/
def StepsTo : VirtualMachine → VirtualMachine → Prop :=
  Relation.ReflTransGen (fun a b => step a = .ok (some b))

/-- The assembled binary of end-to-end scenario B: `LOAD_CONST 10 0`,
`LOAD_CONST 5 1`, `GTE 0 0 1 2 0`, concatenated in program order. -/
def scenarioB : List Nat :=
  (LoadConstInstruction.to_bytes ⟨111, 10, 0⟩).getD [] ++
    (LoadConstInstruction.to_bytes ⟨111, 5, 1⟩).getD [] ++
    (GTEInstruction.to_bytes ⟨68, 0, 0, 1, 2, 0⟩).getD []

/-! Byte-level lemmas about the little-endian codecs. -/

theorem length_natToBytesLE (v n : Nat) : (natToBytesLE v n).length = n := by
  induction n generalizing v with
  | zero => rfl
  | succ n ih => simp [natToBytesLE, ih]

theorem mem_natToBytesLE {b v n : Nat} (h : b ∈ natToBytesLE v n) : b < 256 := by
  induction n generalizing v with
  | zero => simp [natToBytesLE] at h
  | succ n ih =>
    simp only [natToBytesLE, List.mem_cons] at h
    rcases h with h | h
    · exact h ▸ Nat.mod_lt _ (by norm_num)
    · exact ih h

theorem fromBytesLE_natToBytesLE (v n : Nat) :
    fromBytesLE (natToBytesLE v n) = v % 2 ^ (8 * n) := by
  induction n generalizing v with
  | zero => simp [natToBytesLE, fromBytesLE, Nat.mod_one]
  | succ n ih =>
    have h : 2 ^ (8 * (n + 1)) = 256 * 2 ^ (8 * n) := by ring
    rw [natToBytesLE, fromBytesLE, ih, h, Nat.mod_mul]

theorem fromBytesLE_lt (l : List Nat) (h : ∀ b ∈ l, b < 256) :
    fromBytesLE l < 2 ^ (8 * l.length) := by
  induction l with
  | nil => simp [fromBytesLE]
  | cons b l ih =>
    have hb : b < 256 := h b (by simp)
    have hl := ih (fun x hx => h x (by simp [hx]))
    have hp : 2 ^ (8 * (b :: l).length) = 256 * 2 ^ (8 * l.length) := by
      simp only [List.length_cons]; ring
    rw [fromBytesLE, hp]
    omega

theorem fromBytesLE_take (l : List Nat) (k : Nat) (h : ∀ b ∈ l, b < 256) :
    fromBytesLE (l.take k) = fromBytesLE l % 2 ^ (8 * k) := by
  induction l generalizing k with
  | nil => simp [fromBytesLE]
  | cons b l ih =>
    cases k with
    | zero => simp [fromBytesLE, Nat.mod_one]
    | succ k =>
      have hb : b < 256 := h b (by simp)
      have hp : 2 ^ (8 * (k + 1)) = 256 * 2 ^ (8 * k) := by ring
      rw [List.take_succ_cons, fromBytesLE, fromBytesLE,
        ih k (fun x hx => h x (by simp [hx])), hp, Nat.mod_mul,
        Nat.add_mul_div_left _ _ (by norm_num : (0:Nat) < 256),
        Nat.add_mul_mod_self_left, Nat.mod_eq_of_lt hb, Nat.div_eq_of_lt hb,
        Nat.zero_add]

theorem fromBytesLE_drop (l : List Nat) (k : Nat) (h : ∀ b ∈ l, b < 256) :
    fromBytesLE (l.drop k) = fromBytesLE l / 2 ^ (8 * k) := by
  induction l generalizing k with
  | nil => simp [fromBytesLE]
  | cons b l ih =>
    cases k with
    | zero => simp
    | succ k =>
      have hb : b < 256 := h b (by simp)
      have hp : 2 ^ (8 * (k + 1)) = 256 * 2 ^ (8 * k) := by ring
      rw [List.drop_succ_cons, ih k (fun x hx => h x (by simp [hx])), fromBytesLE, hp,
        ← Nat.div_div_eq_div_mul,
        Nat.add_mul_div_left _ _ (by norm_num : (0:Nat) < 256),
        Nat.div_eq_of_lt hb, Nat.zero_add]

theorem testBit_fromBytesLE (l : List Nat) (h : ∀ b ∈ l, b < 256) (k : Nat) :
    (fromBytesLE l).testBit k = byteBit l k := by
  induction l generalizing k with
  | nil => simp [fromBytesLE, byteBit]
  | cons b l ih =>
    have hb : b < 256 := h b (by simp)
    rcases Nat.lt_or_ge k 8 with hk | hk
    · have hk8 : k + (8 - k) = 8 := by omega
      have h8 : 256 * fromBytesLE l = 2 ^ k * (2 ^ (8 - k) * fromBytesLE l) := by
        rw [← Nat.mul_assoc, ← Nat.pow_add, hk8]
      have hdiv : (b + 256 * fromBytesLE l) / 2 ^ k = b / 2 ^ k + 2 ^ (8 - k) * fromBytesLE l := by
        rw [h8, Nat.add_mul_div_left _ _ (Nat.two_pow_pos k)]
      have hk7 : 8 - k = (7 - k) + 1 := by omega
      have heven : 2 ^ (8 - k) * fromBytesLE l = 2 * (2 ^ (7 - k) * fromBytesLE l) := by
        rw [hk7, Nat.pow_succ', Nat.mul_assoc]
      have : (b + 256 * fromBytesLE l) / 2 ^ k % 2 = b / 2 ^ k % 2 := by
        rw [hdiv, heven, Nat.add_mul_mod_self_left]
      simp only [fromBytesLE, byteBit, Nat.testBit_to_div_mod, this]
      have : k / 8 = 0 := Nat.div_eq_of_lt hk
      simp [this, Nat.mod_eq_of_lt hk]
    · obtain ⟨k', rfl⟩ : ∃ k', k = 8 + k' := ⟨k - 8, by omega⟩
      have hdiv : (b + 256 * fromBytesLE l) / 2 ^ (8 + k') = fromBytesLE l / 2 ^ k' := by
        rw [Nat.pow_add, ← Nat.div_div_eq_div_mul,
          (by norm_num : (2:Nat) ^ 8 = 256),
          Nat.add_mul_div_left _ _ (by norm_num : (0:Nat) < 256),
          Nat.div_eq_of_lt hb, Nat.zero_add]
      have hidx : (8 + k') / 8 = 1 + k' / 8 := by omega
      have hmod : (8 + k') % 8 = k' % 8 := by omega
      have step1 : (fromBytesLE (b :: l)).testBit (8 + k') = (fromBytesLE l).testBit k' := by
        simp only [fromBytesLE, Nat.testBit_to_div_mod, hdiv]
      rw [step1, ih (fun x hx => h x (by simp [hx])) k']
      simp [byteBit, hidx, hmod, Nat.add_comm 1 (k' / 8)]

/-! `read_bits` as arithmetic on the little-endian value of the buffer. -/

theorem read_bits_eq (m : List Int) (buffer : List Nat) (pc s L : Nat)
    (hb : ∀ b ∈ buffer, b < 256) (hL : 1 ≤ L) :
    read_bits ⟨m, buffer, pc⟩ s L =
      fromBytesLE buffer / 2 ^ (8 * pc + s) % 2 ^ L := by
  have hdrop : ∀ b ∈ buffer.drop (pc + s / 8), b < 256 :=
    fun b hb' => hb b (List.mem_of_mem_drop hb')
  simp only [read_bits]
  rw [Nat.shiftLeft_eq, one_mul, Nat.and_pow_two_sub_one_eq_mod,
    Nat.shiftRight_eq_div_pow,
    fromBytesLE_take _ _ hdrop, fromBytesLE_drop _ _ hb]
  rw [show (2:Nat) ^ (8 * ((s + L - 1) / 8 + 1 - s / 8)) =
      2 ^ (s % 8) * 2 ^ (8 * ((s + L - 1) / 8 + 1 - s / 8) - s % 8) from by
    rw [← Nat.pow_add]
    congr 1
    omega]
  rw [Nat.mod_mul_right_div_self,
    Nat.mod_mod_of_dvd _ (Nat.pow_dvd_pow 2 (by omega)),
    Nat.div_div_eq_div_mul, ← Nat.pow_add]
  rw [show 8 * (pc + s / 8) + s % 8 = 8 * pc + s from by omega]

theorem read_bits_toBytes (m : List Int) (v n s L : Nat)
    (hv : v < 2 ^ (8 * n)) (hL : 1 ≤ L) :
    read_bits ⟨m, natToBytesLE v n, 0⟩ s L = v / 2 ^ s % 2 ^ L := by
  rw [read_bits_eq _ _ _ _ _ (fun b hb => mem_natToBytesLE hb) hL,
    fromBytesLE_natToBytesLE, Nat.mod_eq_of_lt hv, Nat.mul_zero, Nat.zero_add]

/-- OR-ing a value shifted past the bits of `a` is plain addition. -/
theorem or_shiftLeft_eq_add {a : Nat} (b k : Nat) (h : a < 2 ^ k) :
    a ||| (b <<< k) = a + 2 ^ k * b := by
  rw [Nat.shiftLeft_eq, Nat.mul_comm b (2 ^ k), Nat.lor_comm,
    ← Nat.mul_add_lt_is_or h]
  omega

/-! The packed integer of each `to_bytes`, rewritten as a sum of disjoint
shifted fields. -/

theorem loadConst_value {c a : Nat} (hc : c < 2048) (ha : a < 67108864) :
    111 ||| (c <<< 7) ||| (a <<< 18) = 111 + 128 * c + 262144 * a := by
  rw [or_shiftLeft_eq_add c 7 (by omega), or_shiftLeft_eq_add a 18 (by omega)]
  norm_num

theorem readMem_value {o s d : Nat} (ho : o < 256) (hs : s < 67108864)
    (hd : d < 67108864) :
    40 ||| (o <<< 7) ||| (s <<< 15) ||| (d <<< 41) =
      40 + 2 ^ 7 * o + 2 ^ 15 * s + 2 ^ 41 * d := by
  rw [or_shiftLeft_eq_add o 7 (by omega), or_shiftLeft_eq_add s 15 (by omega),
    or_shiftLeft_eq_add d 41 (by omega)]

theorem writeMem_value {s d : Nat} (hs : s < 67108864) (hd : d < 67108864) :
    101 ||| (s <<< 7) ||| (d <<< 33) = 101 + 2 ^ 7 * s + 2 ^ 33 * d := by
  rw [or_shiftLeft_eq_add s 7 (by omega), or_shiftLeft_eq_add d 33 (by omega)]

theorem gte_value {o1 a1 a2 r o2 : Nat} (ho1 : o1 < 256) (ha1 : a1 < 67108864)
    (ha2 : a2 < 67108864) (hr : r < 67108864) (ho2 : o2 < 256) :
    68 ||| (o1 <<< 7) ||| (a1 <<< 15) ||| (a2 <<< 41) ||| (r <<< 67) ||| (o2 <<< 93) =
      68 + 2 ^ 7 * o1 + 2 ^ 15 * a1 + 2 ^ 41 * a2 + 2 ^ 67 * r + 2 ^ 93 * o2 := by
  rw [or_shiftLeft_eq_add o1 7 (by omega), or_shiftLeft_eq_add a1 15 (by omega),
    or_shiftLeft_eq_add a2 41 (by omega), or_shiftLeft_eq_add r 67 (by omega),
    or_shiftLeft_eq_add o2 93 (by omega)]

/-! Per-variant encode/decode round trips: `to_bytes` succeeds with the fixed
byte length and `read_bits` at the layout offsets recovers every field. -/

theorem loadConst_roundtrip (m : List Int) (c a : Nat)
    (hc : c < 2048) (ha : a < 67108864) :
    LoadConstInstruction.to_bytes ⟨111, c, a⟩ =
        some (natToBytesLE (111 + 128 * c + 262144 * a) 6) ∧
      (natToBytesLE (111 + 128 * c + 262144 * a) 6).length = 6 ∧
      read_bits ⟨m, natToBytesLE (111 + 128 * c + 262144 * a) 6, 0⟩ 0 7 = 111 ∧
      read_bits ⟨m, natToBytesLE (111 + 128 * c + 262144 * a) 6, 0⟩ 7 11 = c ∧
      read_bits ⟨m, natToBytesLE (111 + 128 * c + 262144 * a) 6, 0⟩ 18 26 = a := by
  have hlt : 111 + 128 * c + 262144 * a < 2 ^ (8 * 6) := by norm_num; omega
  refine ⟨?_, length_natToBytesLE _ _, ?_, ?_, ?_⟩
  · simp only [LoadConstInstruction.to_bytes, intToBytes,
      loadConst_value hc ha, if_pos hlt]
  · rw [read_bits_toBytes m _ 6 0 7 hlt (by norm_num)]; omega
  · rw [read_bits_toBytes m _ 6 7 11 hlt (by norm_num)]; omega
  · rw [read_bits_toBytes m _ 6 18 26 hlt (by norm_num)]; omega

theorem readMem_roundtrip (m : List Int) (o s d : Nat)
    (ho : o < 256) (hs : s < 67108864) (hd : d < 67108864) :
    ReadMemInstruction.to_bytes ⟨40, o, s, d⟩ =
        some (natToBytesLE (40 + 2 ^ 7 * o + 2 ^ 15 * s + 2 ^ 41 * d) 9) ∧
      (natToBytesLE (40 + 2 ^ 7 * o + 2 ^ 15 * s + 2 ^ 41 * d) 9).length = 9 ∧
      read_bits ⟨m, natToBytesLE (40 + 2 ^ 7 * o + 2 ^ 15 * s + 2 ^ 41 * d) 9, 0⟩ 0 7 = 40 ∧
      read_bits ⟨m, natToBytesLE (40 + 2 ^ 7 * o + 2 ^ 15 * s + 2 ^ 41 * d) 9, 0⟩ 7 8 = o ∧
      read_bits ⟨m, natToBytesLE (40 + 2 ^ 7 * o + 2 ^ 15 * s + 2 ^ 41 * d) 9, 0⟩ 15 26 = s ∧
      read_bits ⟨m, natToBytesLE (40 + 2 ^ 7 * o + 2 ^ 15 * s + 2 ^ 41 * d) 9, 0⟩ 41 26 = d := by
  have hlt : 40 + 2 ^ 7 * o + 2 ^ 15 * s + 2 ^ 41 * d < 2 ^ (8 * 9) := by norm_num; omega
  refine ⟨?_, length_natToBytesLE _ _, ?_, ?_, ?_, ?_⟩
  · simp only [ReadMemInstruction.to_bytes, intToBytes,
      readMem_value ho hs hd, if_pos hlt]
  · rw [read_bits_toBytes m _ 9 0 7 hlt (by norm_num)]; omega
  · rw [read_bits_toBytes m _ 9 7 8 hlt (by norm_num)]; omega
  · rw [read_bits_toBytes m _ 9 15 26 hlt (by norm_num)]; omega
  · rw [read_bits_toBytes m _ 9 41 26 hlt (by norm_num)]; omega

theorem writeMem_roundtrip (m : List Int) (s d : Nat)
    (hs : s < 67108864) (hd : d < 67108864) :
    WriteMemInstruction.to_bytes ⟨101, s, d⟩ =
        some (natToBytesLE (101 + 2 ^ 7 * s + 2 ^ 33 * d) 8) ∧
      (natToBytesLE (101 + 2 ^ 7 * s + 2 ^ 33 * d) 8).length = 8 ∧
      read_bits ⟨m, natToBytesLE (101 + 2 ^ 7 * s + 2 ^ 33 * d) 8, 0⟩ 0 7 = 101 ∧
      read_bits ⟨m, natToBytesLE (101 + 2 ^ 7 * s + 2 ^ 33 * d) 8, 0⟩ 7 26 = s ∧
      read_bits ⟨m, natToBytesLE (101 + 2 ^ 7 * s + 2 ^ 33 * d) 8, 0⟩ 33 26 = d := by
  have hlt : 101 + 2 ^ 7 * s + 2 ^ 33 * d < 2 ^ (8 * 8) := by norm_num; omega
  refine ⟨?_, length_natToBytesLE _ _, ?_, ?_, ?_⟩
  · simp only [WriteMemInstruction.to_bytes, intToBytes,
      writeMem_value hs hd, if_pos hlt]
  · rw [read_bits_toBytes m _ 8 0 7 hlt (by norm_num)]; omega
  · rw [read_bits_toBytes m _ 8 7 26 hlt (by norm_num)]; omega
  · rw [read_bits_toBytes m _ 8 33 26 hlt (by norm_num)]; omega

theorem gte_roundtrip (m : List Int) (o1 a1 a2 r o2 : Nat)
    (ho1 : o1 < 256) (ha1 : a1 < 67108864) (ha2 : a2 < 67108864)
    (hr : r < 67108864) (ho2 : o2 < 256) :
    GTEInstruction.to_bytes ⟨68, o1, a1, a2, r, o2⟩ =
        some (natToBytesLE
          (68 + 2 ^ 7 * o1 + 2 ^ 15 * a1 + 2 ^ 41 * a2 + 2 ^ 67 * r + 2 ^ 93 * o2) 13) ∧
      (natToBytesLE
          (68 + 2 ^ 7 * o1 + 2 ^ 15 * a1 + 2 ^ 41 * a2 + 2 ^ 67 * r + 2 ^ 93 * o2) 13).length
        = 13 ∧
      read_bits ⟨m, natToBytesLE
        (68 + 2 ^ 7 * o1 + 2 ^ 15 * a1 + 2 ^ 41 * a2 + 2 ^ 67 * r + 2 ^ 93 * o2) 13, 0⟩ 0 7
        = 68 ∧
      read_bits ⟨m, natToBytesLE
        (68 + 2 ^ 7 * o1 + 2 ^ 15 * a1 + 2 ^ 41 * a2 + 2 ^ 67 * r + 2 ^ 93 * o2) 13, 0⟩ 7 8
        = o1 ∧
      read_bits ⟨m, natToBytesLE
        (68 + 2 ^ 7 * o1 + 2 ^ 15 * a1 + 2 ^ 41 * a2 + 2 ^ 67 * r + 2 ^ 93 * o2) 13, 0⟩ 15 26
        = a1 ∧
      read_bits ⟨m, natToBytesLE
        (68 + 2 ^ 7 * o1 + 2 ^ 15 * a1 + 2 ^ 41 * a2 + 2 ^ 67 * r + 2 ^ 93 * o2) 13, 0⟩ 41 26
        = a2 ∧
      read_bits ⟨m, natToBytesLE
        (68 + 2 ^ 7 * o1 + 2 ^ 15 * a1 + 2 ^ 41 * a2 + 2 ^ 67 * r + 2 ^ 93 * o2) 13, 0⟩ 67 26
        = r ∧
      read_bits ⟨m, natToBytesLE
        (68 + 2 ^ 7 * o1 + 2 ^ 15 * a1 + 2 ^ 41 * a2 + 2 ^ 67 * r + 2 ^ 93 * o2) 13, 0⟩ 93 8
        = o2 := by
  have hlt : 68 + 2 ^ 7 * o1 + 2 ^ 15 * a1 + 2 ^ 41 * a2 + 2 ^ 67 * r + 2 ^ 93 * o2
      < 2 ^ (8 * 13) := by norm_num; omega
  refine ⟨?_, length_natToBytesLE _ _, ?_, ?_, ?_, ?_, ?_, ?_⟩
  · simp only [GTEInstruction.to_bytes, intToBytes,
      gte_value ho1 ha1 ha2 hr ho2, if_pos hlt]
  · rw [read_bits_toBytes m _ 13 0 7 hlt (by norm_num)]; omega
  · rw [read_bits_toBytes m _ 13 7 8 hlt (by norm_num)]; omega
  · rw [read_bits_toBytes m _ 13 15 26 hlt (by norm_num)]; omega
  · rw [read_bits_toBytes m _ 13 41 26 hlt (by norm_num)]; omega
  · rw [read_bits_toBytes m _ 13 67 26 hlt (by norm_num)]; omega
  · rw [read_bits_toBytes m _ 13 93 8 hlt (by norm_num)]; omega

/-! Inversion of the validating constructors. -/

theorem mkLoadConst_ok {c a : Int} {i : LoadConstInstruction}
    (h : mkLoadConst c a = .ok i) :
    i = ⟨111, c.toNat, a.toNat⟩ ∧ i.constant < 2048 ∧ i.address < 67108864 := by
  simp only [mkLoadConst] at h
  split_ifs at h with h1 h2
  cases h
  refine ⟨rfl, ?_, ?_⟩ <;> push_neg at h1 h2 <;> dsimp only <;> omega

theorem mkReadMem_ok {o s d : Int} {i : ReadMemInstruction}
    (h : mkReadMem o s d = .ok i) :
    i = ⟨40, o.toNat, s.toNat, d.toNat⟩ ∧
      i.offset < 256 ∧ i.src_addr < 67108864 ∧ i.dst_addr < 67108864 := by
  simp only [mkReadMem] at h
  split_ifs at h with h1 h2 h3
  cases h
  refine ⟨rfl, ?_, ?_, ?_⟩ <;> push_neg at h1 h2 h3 <;> dsimp only <;> omega

theorem mkWriteMem_ok {s d : Int} {i : WriteMemInstruction}
    (h : mkWriteMem s d = .ok i) :
    i = ⟨101, s.toNat, d.toNat⟩ ∧ i.src_addr < 67108864 ∧ i.dst_addr < 67108864 := by
  simp only [mkWriteMem] at h
  split_ifs at h with h1 h2
  cases h
  refine ⟨rfl, ?_, ?_⟩ <;> push_neg at h1 h2 <;> dsimp only <;> omega

theorem mkGTE_ok {o1 a1 a2 r o2 : Int} {i : GTEInstruction}
    (h : mkGTE o1 a1 a2 r o2 = .ok i) :
    i = ⟨68, o1.toNat, a1.toNat, a2.toNat, r.toNat, o2.toNat⟩ ∧
      i.offset1 < 256 ∧ i.addr1 < 67108864 ∧ i.addr2 < 67108864 ∧
      i.res_addr < 67108864 ∧ i.offset2 < 256 := by
  simp only [mkGTE] at h
  split_ifs at h with h1 h2 h3 h4 h5
  cases h
  refine ⟨rfl, ?_, ?_, ?_, ?_, ?_⟩ <;> push_neg at h1 h2 h3 h4 h5 <;> dsimp only <;> omega

/-- C1: for every instruction variant and every choice of operand values within
their declared bit-widths, encoding the instruction with `to_bytes` and reading
each field back at the section 4.2 bit offsets via the engine's `read_bits`
(with PC at the start of the encoding) yields the original opcode and every
original operand value unchanged. -/
theorem C1_encode_decode_roundtrip :
    (∀ (m : List Int) (c a : Nat), c < 2048 → a < 67108864 →
      ∃ bs, LoadConstInstruction.to_bytes ⟨111, c, a⟩ = some bs ∧
        read_bits ⟨m, bs, 0⟩ 0 7 = 111 ∧ read_bits ⟨m, bs, 0⟩ 7 11 = c ∧
        read_bits ⟨m, bs, 0⟩ 18 26 = a) ∧
    (∀ (m : List Int) (o s d : Nat), o < 256 → s < 67108864 → d < 67108864 →
      ∃ bs, ReadMemInstruction.to_bytes ⟨40, o, s, d⟩ = some bs ∧
        read_bits ⟨m, bs, 0⟩ 0 7 = 40 ∧ read_bits ⟨m, bs, 0⟩ 7 8 = o ∧
        read_bits ⟨m, bs, 0⟩ 15 26 = s ∧ read_bits ⟨m, bs, 0⟩ 41 26 = d) ∧
    (∀ (m : List Int) (s d : Nat), s < 67108864 → d < 67108864 →
      ∃ bs, WriteMemInstruction.to_bytes ⟨101, s, d⟩ = some bs ∧
        read_bits ⟨m, bs, 0⟩ 0 7 = 101 ∧ read_bits ⟨m, bs, 0⟩ 7 26 = s ∧
        read_bits ⟨m, bs, 0⟩ 33 26 = d) ∧
    (∀ (m : List Int) (o1 a1 a2 r o2 : Nat), o1 < 256 → a1 < 67108864 →
      a2 < 67108864 → r < 67108864 → o2 < 256 →
      ∃ bs, GTEInstruction.to_bytes ⟨68, o1, a1, a2, r, o2⟩ = some bs ∧
        read_bits ⟨m, bs, 0⟩ 0 7 = 68 ∧ read_bits ⟨m, bs, 0⟩ 7 8 = o1 ∧
        read_bits ⟨m, bs, 0⟩ 15 26 = a1 ∧ read_bits ⟨m, bs, 0⟩ 41 26 = a2 ∧
        read_bits ⟨m, bs, 0⟩ 67 26 = r ∧ read_bits ⟨m, bs, 0⟩ 93 8 = o2) := by
  refine ⟨?_, ?_, ?_, ?_⟩
  · intro m c a hc ha
    obtain ⟨h1, _, h3, h4, h5⟩ := loadConst_roundtrip m c a hc ha
    exact ⟨_, h1, h3, h4, h5⟩
  · intro m o s d ho hs hd
    obtain ⟨h1, _, h3, h4, h5, h6⟩ := readMem_roundtrip m o s d ho hs hd
    exact ⟨_, h1, h3, h4, h5, h6⟩
  · intro m s d hs hd
    obtain ⟨h1, _, h3, h4, h5⟩ := writeMem_roundtrip m s d hs hd
    exact ⟨_, h1, h3, h4, h5⟩
  · intro m o1 a1 a2 r o2 ho1 ha1 ha2 hr ho2
    obtain ⟨h1, _, h3, h4, h5, h6, h7, h8⟩ := gte_roundtrip m o1 a1 a2 r o2 ho1 ha1 ha2 hr ho2
    exact ⟨_, h1, h3, h4, h5, h6, h7, h8⟩

/-- Witness for C1 at the boundary values: the 101-bit Gte layout with every
operand at its maximum round-trips. -/
theorem C1_encode_decode_roundtrip_witness :
    ∃ bs, GTEInstruction.to_bytes ⟨68, 255, 67108863, 67108863, 67108863, 255⟩ = some bs ∧
      read_bits ⟨[], bs, 0⟩ 0 7 = 68 ∧ read_bits ⟨[], bs, 0⟩ 7 8 = 255 ∧
      read_bits ⟨[], bs, 0⟩ 15 26 = 67108863 ∧ read_bits ⟨[], bs, 0⟩ 41 26 = 67108863 ∧
      read_bits ⟨[], bs, 0⟩ 67 26 = 67108863 ∧ read_bits ⟨[], bs, 0⟩ 93 8 = 255 :=
  C1_encode_decode_roundtrip.2.2.2 [] 255 67108863 67108863 67108863 255
    (by norm_num) (by norm_num) (by norm_num) (by norm_num) (by norm_num)

/-- C5: for every validly constructed instruction, regardless of operand
values, `to_bytes` succeeds (the packed integer always fits) and returns
exactly the fixed byte length of its variant: 6 for LoadConst, 13 for Gte,
8 for WriteMem, 9 for ReadMem. -/
theorem C5_byte_length :
    (∀ (c a : Int) (i : LoadConstInstruction), mkLoadConst c a = .ok i →
      ∃ bs, i.to_bytes = some bs ∧ bs.length = 6) ∧
    (∀ (o1 a1 a2 r o2 : Int) (i : GTEInstruction), mkGTE o1 a1 a2 r o2 = .ok i →
      ∃ bs, i.to_bytes = some bs ∧ bs.length = 13) ∧
    (∀ (s d : Int) (i : WriteMemInstruction), mkWriteMem s d = .ok i →
      ∃ bs, i.to_bytes = some bs ∧ bs.length = 8) ∧
    (∀ (o s d : Int) (i : ReadMemInstruction), mkReadMem o s d = .ok i →
      ∃ bs, i.to_bytes = some bs ∧ bs.length = 9) := by
  refine ⟨?_, ?_, ?_, ?_⟩
  · intro c a i h
    obtain ⟨rfl, hc, ha⟩ := mkLoadConst_ok h
    obtain ⟨h1, h2, -⟩ := loadConst_roundtrip [] _ _ hc ha
    exact ⟨_, h1, h2⟩
  · intro o1 a1 a2 r o2 i h
    obtain ⟨rfl, h1, h2, h3, h4, h5⟩ := mkGTE_ok h
    obtain ⟨hb, hl, -⟩ := gte_roundtrip [] _ _ _ _ _ h1 h2 h3 h4 h5
    exact ⟨_, hb, hl⟩
  · intro s d i h
    obtain ⟨rfl, h1, h2⟩ := mkWriteMem_ok h
    obtain ⟨hb, hl, -⟩ := writeMem_roundtrip [] _ _ h1 h2
    exact ⟨_, hb, hl⟩
  · intro o s d i h
    obtain ⟨rfl, h1, h2, h3⟩ := mkReadMem_ok h
    obtain ⟨hb, hl, -⟩ := readMem_roundtrip [] _ _ _ h1 h2 h3
    exact ⟨_, hb, hl⟩

/-- Witness for C5: a concrete validly constructed Gte instruction encodes to
exactly 13 bytes. -/
theorem C5_byte_length_witness :
    ∃ bs, GTEInstruction.to_bytes ⟨68, 255, 67108863, 0, 1, 2⟩ = some bs ∧ bs.length = 13 :=
  C5_byte_length.2.1 255 67108863 0 1 2 ⟨68, 255, 67108863, 0, 1, 2⟩ (by decide)

/-- C6: for each variant and each operand, construction with the operand equal
to `2^width` fails with an error reporting the value and the allowed range,
while `2^width - 1` (other operands in range) succeeds; an out-of-range operand
is never silently encoded. -/
theorem C6_range_enforcement :
    mkLoadConst 2048 0 = .error (.range "constant" 2048 0 2047) ∧
      mkLoadConst 2047 0 = .ok ⟨111, 2047, 0⟩ ∧
    mkLoadConst 0 67108864 = .error (.range "address" 67108864 0 67108863) ∧
      mkLoadConst 0 67108863 = .ok ⟨111, 0, 67108863⟩ ∧
    mkReadMem 256 0 0 = .error (.range "offset" 256 0 255) ∧
      mkReadMem 255 0 0 = .ok ⟨40, 255, 0, 0⟩ ∧
    mkReadMem 0 67108864 0 = .error (.range "src_addr" 67108864 0 67108863) ∧
      mkReadMem 0 67108863 0 = .ok ⟨40, 0, 67108863, 0⟩ ∧
    mkReadMem 0 0 67108864 = .error (.range "dst_addr" 67108864 0 67108863) ∧
      mkReadMem 0 0 67108863 = .ok ⟨40, 0, 0, 67108863⟩ ∧
    mkWriteMem 67108864 0 = .error (.range "src_addr" 67108864 0 67108863) ∧
      mkWriteMem 67108863 0 = .ok ⟨101, 67108863, 0⟩ ∧
    mkWriteMem 0 67108864 = .error (.range "dst_addr" 67108864 0 67108863) ∧
      mkWriteMem 0 67108863 = .ok ⟨101, 0, 67108863⟩ ∧
    mkGTE 256 0 0 0 0 = .error (.range "offset1" 256 0 255) ∧
      mkGTE 255 0 0 0 0 = .ok ⟨68, 255, 0, 0, 0, 0⟩ ∧
    mkGTE 0 67108864 0 0 0 = .error (.range "addr1" 67108864 0 67108863) ∧
      mkGTE 0 67108863 0 0 0 = .ok ⟨68, 0, 67108863, 0, 0, 0⟩ ∧
    mkGTE 0 0 67108864 0 0 = .error (.range "addr2" 67108864 0 67108863) ∧
      mkGTE 0 0 67108863 0 0 = .ok ⟨68, 0, 0, 67108863, 0, 0⟩ ∧
    mkGTE 0 0 0 67108864 0 = .error (.range "res_addr" 67108864 0 67108863) ∧
      mkGTE 0 0 0 67108863 0 = .ok ⟨68, 0, 0, 0, 67108863, 0⟩ ∧
    mkGTE 0 0 0 0 256 = .error (.range "offset2" 256 0 255) ∧
      mkGTE 0 0 0 0 255 = .ok ⟨68, 0, 0, 0, 0, 255⟩ := by
  decide

/-! Python list access at a nonnegative index. -/

theorem pyGet_nonneg {m : List Int} {i : Int} (h0 : 0 ≤ i) :
    pyGet m i = m.get? i.toNat := by
  simp only [pyGet]
  have h1 : ¬ i < 0 := not_lt.2 h0
  simp only [h1, if_false]
  by_cases h2 : i < (m.length : Int)
  · simp [h0, h2]
  · simp only [h0, h2, and_false, if_false, true_and, if_neg h2]
    rw [eq_comm, List.get?_eq_none]
    omega

theorem pySet_nonneg {m : List Int} {i : Int} (v : Int) (h0 : 0 ≤ i)
    (hl : i < (m.length : Int)) :
    pySet m i v = some (m.set i.toNat v) := by
  simp only [pySet]
  have h1 : ¬ i < 0 := not_lt.2 h0
  simp [h1, h0, hl]

/-- C2: executing one Gte instruction with fields
`(offset1, addr1, addr2, res_addr, offset2)` on data memory `m` (all involved
addresses within bounds) computes effective address 1 = `m[addr1] + offset1`
and effective result address = `m[res_addr] + offset2`, reads
`operand1 = m[effective address 1]` and `operand2 = m[addr2]` (direct, not
indirect), and stores 1 at the effective result address when
`operand1 >= operand2` and 0 otherwise, advancing PC by 13. -/
theorem C2_gte_semantics (o1 a1 a2 r o2 : Nat) (m : List Int) (bs : List Nat)
    (b1 bR op1 op2 : Int)
    (ho1 : o1 < 256) (ha1 : a1 < 67108864) (ha2 : a2 < 67108864)
    (hr : r < 67108864) (ho2 : o2 < 256)
    (henc : GTEInstruction.to_bytes ⟨68, o1, a1, a2, r, o2⟩ = some bs)
    (hb1 : pyGet m (a1 : Int) = some b1)
    (hbR : pyGet m (r : Int) = some bR)
    (heff1_lo : 0 ≤ b1 + (o1 : Int)) (heff1_hi : b1 + (o1 : Int) < (m.length : Int))
    (hop1 : pyGet m (b1 + (o1 : Int)) = some op1)
    (hop2 : pyGet m (a2 : Int) = some op2)
    (heffR_lo : 0 ≤ bR + (o2 : Int)) (heffR_hi : bR + (o2 : Int) < (m.length : Int)) :
    execute_gte ⟨m, bs, 0⟩ =
      .ok ⟨m.set (bR + (o2 : Int)).toNat (if op1 ≥ op2 then (1 : Int) else 0), bs, 13⟩ := by
  obtain ⟨henc', -, -, hf1, hf2, hf3, hf4, hf5⟩ :=
    gte_roundtrip m o1 a1 a2 r o2 ho1 ha1 ha2 hr ho2
  rw [henc'] at henc
  cases henc
  simp only [execute_gte, hf1, hf2, hf3, hf4, hf5, hb1, hbR, hop1, hop2,
    pySet_nonneg _ heffR_lo heffR_hi]

/-- Witness for C2: with `m = [5, 3, 9, 0]` the instruction `GTE 1 3 1 3 2`
reads operand1 = `m[m[3] + 1] = m[1] = 3`, operand2 = `m[1] = 3`, and stores 1
at `m[m[3] + 2] = m[2]`. -/
theorem C2_gte_semantics_witness :
    execute_gte ⟨[5, 3, 9, 0],
        (GTEInstruction.to_bytes ⟨68, 1, 3, 1, 3, 2⟩).getD [], 0⟩ =
      .ok ⟨[5, 3, 1, 0], (GTEInstruction.to_bytes ⟨68, 1, 3, 1, 3, 2⟩).getD [], 13⟩ := by
  have h := C2_gte_semantics 1 3 1 3 2 [5, 3, 9, 0]
    ((GTEInstruction.to_bytes ⟨68, 1, 3, 1, 3, 2⟩).getD []) 0 0 3 3
    (by norm_num) (by norm_num) (by norm_num) (by norm_num) (by norm_num)
    (by decide) (by decide) (by decide) (by decide) (by decide)
    (by decide) (by decide) (by decide) (by decide)
  simpa using h

/-- C3 counterexample: running the assembled program `LOAD_CONST 10 0`,
`LOAD_CONST 5 1`, `GTE 0 0 1 2 0` from PC 0 on zero-initialized data memory
does not leave 1 in `memory[2]`: Gte addresses indirectly, so it compares
`memory[memory[0]] = memory[10] = 0` with `memory[1] = 5` and stores the
result 0 at `memory[memory[2]] = memory[0]`. -/
theorem C3_scenarioB_counterexample :
    ¬ ((run (load_program (VirtualMachine.init 16) scenarioB)).map
        (fun v => pyGet v.data_memory 2) = .ok (some 1)) := by
  decide

/-- C3 amended: the run terminates (PC = 25) and `memory[2]` still holds 0;
the comparison result 0 is stored at `memory[0]`. -/
theorem C3_scenarioB_amended :
    run (load_program (VirtualMachine.init 16) scenarioB) =
        .ok ⟨[0, 5, 0, 0, 0, 0, 0, 0, 0, 0, 0, 0, 0, 0, 0, 0], scenarioB, 25⟩ ∧
      (run (load_program (VirtualMachine.init 16) scenarioB)).map
        (fun v => pyGet v.data_memory 2) = .ok (some 0) := by
  decide

/-- C4: for every buffer of bytes, PC, start bit and length at least 1 with the
spanned bytes inside the buffer, `read_bits` returns a value below `2^length`
whose bit `i` (for `i < length`) is bit number `8*PC + start_bit + i` of the
buffer under little-endian byte order; the extraction never assumes fields fit
a native machine word. -/
theorem C4_read_bits_correct (m : List Int) (buffer : List Nat) (pc s L : Nat)
    (hbytes : ∀ b ∈ buffer, b < 256) (hL : 1 ≤ L)
    (hspan : pc + (s + L - 1) / 8 + 1 ≤ buffer.length) :
    read_bits ⟨m, buffer, pc⟩ s L < 2 ^ L ∧
      ∀ i, i < L →
        (read_bits ⟨m, buffer, pc⟩ s L).testBit i = byteBit buffer (8 * pc + s + i) := by
  rw [read_bits_eq m buffer pc s L hbytes hL]
  refine ⟨Nat.mod_lt _ (Nat.two_pow_pos L), ?_⟩
  intro i hi
  rw [Nat.testBit_mod_two_pow,
    show fromBytesLE buffer / 2 ^ (8 * pc + s) = fromBytesLE buffer >>> (8 * pc + s) from
      (Nat.shiftRight_eq_div_pow _ _).symm,
    Nat.testBit_shiftRight,
    ← testBit_fromBytesLE buffer hbytes (8 * pc + s + i)]
  simp [hi]

/-- Witness for C4: in the buffer `[0xAB, 0xCD, 0xEF]` the byte-straddling
field at bit 4 of width 8 reads 0xDA, and its bit 3 is bit 7 of the buffer. -/
theorem C4_read_bits_correct_witness :
    read_bits ⟨[], [171, 205, 239], 0⟩ 4 8 < 2 ^ 8 ∧
      (read_bits ⟨[], [171, 205, 239], 0⟩ 4 8).testBit 3 = byteBit [171, 205, 239] 7 :=
  ⟨(C4_read_bits_correct [] [171, 205, 239] 0 4 8 (by decide) (by norm_num) (by norm_num)).1,
    (C4_read_bits_correct [] [171, 205, 239] 0 4 8
      (by decide) (by norm_num) (by norm_num)).2 3 (by norm_num)⟩

/-! Inversion of the four executors and of `step`. -/

theorem execute_load_const_ok {vm vm' : VirtualMachine}
    (h : execute_load_const vm = .ok vm') :
    ∃ mem, pySet vm.data_memory ((read_bits vm 18 26 : Nat) : Int)
        ((read_bits vm 7 11 : Nat) : Int) = some mem ∧
      vm' = { vm with data_memory := mem, pc := vm.pc + 6 } := by
  simp only [execute_load_const] at h
  split at h
  · exact Except.noConfusion h
  · rename_i mem hmem
    injection h with h2
    exact ⟨mem, hmem, h2.symm⟩

theorem execute_read_mem_ok {vm vm' : VirtualMachine}
    (h : execute_read_mem vm = .ok vm') :
    ∃ base value mem,
      pyGet vm.data_memory ((read_bits vm 15 26 : Nat) : Int) = some base ∧
      pyGet vm.data_memory (base + ((read_bits vm 7 8 : Nat) : Int)) = some value ∧
      pySet vm.data_memory ((read_bits vm 41 26 : Nat) : Int) value = some mem ∧
      vm' = { vm with data_memory := mem, pc := vm.pc + 9 } := by
  simp only [execute_read_mem] at h
  split at h
  · exact Except.noConfusion h
  · rename_i base hbase
    split at h
    · exact Except.noConfusion h
    · rename_i value hvalue
      split at h
      · exact Except.noConfusion h
      · rename_i mem hmem
        injection h with h2
        exact ⟨base, value, mem, hbase, hvalue, hmem, h2.symm⟩

theorem execute_write_mem_ok {vm vm' : VirtualMachine}
    (h : execute_write_mem vm = .ok vm') :
    ∃ value mem,
      pyGet vm.data_memory ((read_bits vm 7 26 : Nat) : Int) = some value ∧
      pySet vm.data_memory ((read_bits vm 33 26 : Nat) : Int) value = some mem ∧
      vm' = { vm with data_memory := mem, pc := vm.pc + 8 } := by
  simp only [execute_write_mem] at h
  split at h
  · exact Except.noConfusion h
  · rename_i value hvalue
    split at h
    · exact Except.noConfusion h
    · rename_i mem hmem
      injection h with h2
      exact ⟨value, mem, hvalue, hmem, h2.symm⟩

theorem execute_gte_ok {vm vm' : VirtualMachine}
    (h : execute_gte vm = .ok vm') :
    ∃ base1 baseR operand1 operand2 mem,
      pyGet vm.data_memory ((read_bits vm 15 26 : Nat) : Int) = some base1 ∧
      pyGet vm.data_memory ((read_bits vm 67 26 : Nat) : Int) = some baseR ∧
      pyGet vm.data_memory (base1 + ((read_bits vm 7 8 : Nat) : Int)) = some operand1 ∧
      pyGet vm.data_memory ((read_bits vm 41 26 : Nat) : Int) = some operand2 ∧
      pySet vm.data_memory (baseR + ((read_bits vm 93 8 : Nat) : Int))
          (if operand1 ≥ operand2 then 1 else 0) = some mem ∧
      vm' = { vm with data_memory := mem, pc := vm.pc + 13 } := by
  simp only [execute_gte] at h
  split at h
  · exact Except.noConfusion h
  · rename_i base1 hbase1
    split at h
    · exact Except.noConfusion h
    · rename_i baseR hbaseR
      split at h
      · exact Except.noConfusion h
      · rename_i operand1 hoperand1
        split at h
        · exact Except.noConfusion h
        · rename_i operand2 hoperand2
          split at h
          · exact Except.noConfusion h
          · rename_i mem hmem
            injection h with h2
            exact ⟨base1, baseR, operand1, operand2, mem,
              hbase1, hbaseR, hoperand1, hoperand2, hmem, h2.symm⟩

theorem step_ok_some {vm vm' : VirtualMachine} (h : step vm = .ok (some vm')) :
    vm'.code_memory = vm.code_memory ∧
      vm.pc < vm.code_memory.length ∧
      ((read_bits vm 0 7 = 111 ∧ vm'.pc = vm.pc + 6) ∨
       (read_bits vm 0 7 = 40 ∧ vm'.pc = vm.pc + 9) ∨
       (read_bits vm 0 7 = 101 ∧ vm'.pc = vm.pc + 8) ∨
       (read_bits vm 0 7 = 68 ∧ vm'.pc = vm.pc + 13)) := by
  simp only [step] at h
  split_ifs at h with hhalt h111 h40 h101 h68
  · simp at h
  · cases hx : execute_load_const vm with
    | error e => rw [hx] at h; simp [Except.map] at h
    | ok w =>
      obtain ⟨mem, hset, rfl⟩ := execute_load_const_ok hx
      rw [hx] at h
      simp only [Except.map, Except.ok.injEq, Option.some.injEq] at h
      subst h
      exact ⟨rfl, by omega, Or.inl ⟨h111, rfl⟩⟩
  · cases hx : execute_read_mem vm with
    | error e => rw [hx] at h; simp [Except.map] at h
    | ok w =>
      obtain ⟨base, value, mem, hbase, hvalue, hset, rfl⟩ := execute_read_mem_ok hx
      rw [hx] at h
      simp only [Except.map, Except.ok.injEq, Option.some.injEq] at h
      subst h
      exact ⟨rfl, by omega, Or.inr (Or.inl ⟨h40, rfl⟩)⟩
  · cases hx : execute_write_mem vm with
    | error e => rw [hx] at h; simp [Except.map] at h
    | ok w =>
      obtain ⟨value, mem, hvalue, hset, rfl⟩ := execute_write_mem_ok hx
      rw [hx] at h
      simp only [Except.map, Except.ok.injEq, Option.some.injEq] at h
      subst h
      exact ⟨rfl, by omega, Or.inr (Or.inr (Or.inl ⟨h101, rfl⟩))⟩
  · cases hx : execute_gte vm with
    | error e => rw [hx] at h; simp [Except.map] at h
    | ok w =>
      obtain ⟨b1, bR, op1, op2, mem, h1, h2, h3, h4, hset, rfl⟩ := execute_gte_ok hx
      rw [hx] at h
      simp only [Except.map, Except.ok.injEq, Option.some.injEq] at h
      subst h
      exact ⟨rfl, by omega, Or.inr (Or.inr (Or.inr ⟨h68, rfl⟩))⟩

theorem step_ok_none_iff (vm : VirtualMachine) :
    step vm = .ok none ↔ vm.code_memory.length ≤ vm.pc := by
  constructor
  · intro h
    by_contra hlt
    simp only [step] at h
    rw [if_neg hlt] at h
    split_ifs at h with h1 h2 h3 h4
    · cases hx : execute_load_const vm <;> rw [hx] at h <;> simp [Except.map] at h
    · cases hx : execute_read_mem vm <;> rw [hx] at h <;> simp [Except.map] at h
    · cases hx : execute_write_mem vm <;> rw [hx] at h <;> simp [Except.map] at h
    · cases hx : execute_gte vm <;> rw [hx] at h <;> simp [Except.map] at h
  · intro h
    simp [step, h]

theorem step_pc_advance {vm vm' : VirtualMachine} (h : step vm = .ok (some vm')) :
    vm.pc + 6 ≤ vm'.pc := by
  obtain ⟨-, -, hd⟩ := step_ok_some h
  rcases hd with ⟨-, h⟩ | ⟨-, h⟩ | ⟨-, h⟩ | ⟨-, h⟩ <;> omega

theorem runAux_halts : ∀ (fuel : Nat) (vm vm' : VirtualMachine),
    vm.code_memory.length ≤ 6 * fuel + vm.pc → runAux fuel vm = .ok vm' →
    vm'.code_memory.length ≤ vm'.pc := by
  intro fuel
  induction fuel with
  | zero =>
    intro vm vm' hf h
    injection h with h2
    subst h2
    omega
  | succ fuel ih =>
    intro vm vm' hf h
    simp only [runAux] at h
    cases hs : step vm with
    | error e => rw [hs] at h; exact Except.noConfusion h
    | ok o =>
      rw [hs] at h
      cases o with
      | none =>
        injection h with h2
        subst h2
        exact (step_ok_none_iff vm).mp hs
      | some vm2 =>
        have hadv := step_pc_advance hs
        have hcode := (step_ok_some hs).1
        exact ih vm2 vm' (by rw [hcode]; omega) h

/-- C7: PC starts at 0 after `load_program`; every step that executes an
instruction advances PC by exactly that variant's fixed byte length (6, 9, 8
or 13 according to the opcode), so PC is strictly increasing over a run; a
step halts exactly when PC has reached the length of the loaded binary, and a
completed `run` ends with PC at or past the end of the binary. -/
theorem C7_pc_advancement :
    (∀ (vm : VirtualMachine) (code : List Nat), (load_program vm code).pc = 0) ∧
    (∀ vm vm' : VirtualMachine, step vm = .ok (some vm') →
      ((read_bits vm 0 7 = 111 ∧ vm'.pc = vm.pc + 6) ∨
       (read_bits vm 0 7 = 40 ∧ vm'.pc = vm.pc + 9) ∨
       (read_bits vm 0 7 = 101 ∧ vm'.pc = vm.pc + 8) ∨
       (read_bits vm 0 7 = 68 ∧ vm'.pc = vm.pc + 13))) ∧
    (∀ vm vm' : VirtualMachine, step vm = .ok (some vm') → vm.pc < vm'.pc) ∧
    (∀ vm : VirtualMachine, step vm = .ok none ↔ vm.code_memory.length ≤ vm.pc) ∧
    (∀ vm vm' : VirtualMachine, run vm = .ok vm' → vm'.code_memory.length ≤ vm'.pc) := by
  refine ⟨fun vm code => rfl, ?_, ?_, step_ok_none_iff, ?_⟩
  · intro vm vm' h
    exact (step_ok_some h).2.2
  · intro vm vm' h
    have := step_pc_advance h
    omega
  · intro vm vm' h
    exact runAux_halts _ vm vm' (by omega) h

/-- Witness for C7: one step on a binary holding a single `LOAD_CONST 7 0`
instruction advances PC from 0 to exactly 6. -/
theorem C7_pc_advancement_witness :
    (read_bits ⟨[0, 0], [239, 3, 0, 0, 0, 0], 0⟩ 0 7 = 111 ∧
        (⟨[7, 0], [239, 3, 0, 0, 0, 0], 6⟩ : VirtualMachine).pc =
          (⟨[0, 0], [239, 3, 0, 0, 0, 0], 0⟩ : VirtualMachine).pc + 6) ∨
      (read_bits ⟨[0, 0], [239, 3, 0, 0, 0, 0], 0⟩ 0 7 = 40 ∧
        (⟨[7, 0], [239, 3, 0, 0, 0, 0], 6⟩ : VirtualMachine).pc =
          (⟨[0, 0], [239, 3, 0, 0, 0, 0], 0⟩ : VirtualMachine).pc + 9) ∨
      (read_bits ⟨[0, 0], [239, 3, 0, 0, 0, 0], 0⟩ 0 7 = 101 ∧
        (⟨[7, 0], [239, 3, 0, 0, 0, 0], 6⟩ : VirtualMachine).pc =
          (⟨[0, 0], [239, 3, 0, 0, 0, 0], 0⟩ : VirtualMachine).pc + 8) ∨
      (read_bits ⟨[0, 0], [239, 3, 0, 0, 0, 0], 0⟩ 0 7 = 68 ∧
        (⟨[7, 0], [239, 3, 0, 0, 0, 0], 6⟩ : VirtualMachine).pc =
          (⟨[0, 0], [239, 3, 0, 0, 0, 0], 0⟩ : VirtualMachine).pc + 13) :=
  C7_pc_advancement.2.1 ⟨[0, 0], [239, 3, 0, 0, 0, 0], 0⟩
    ⟨[7, 0], [239, 3, 0, 0, 0, 0], 6⟩ (by decide)

/-! Further facts about memory access and decoded field ranges. -/

theorem pyGet_mem {m : List Int} {i v : Int} (h : pyGet m i = some v) : v ∈ m := by
  simp only [pyGet] at h
  split_ifs at h with hc
  all_goals exact List.get?_mem h

theorem pySet_ok {m m' : List Int} {i v : Int} (h : pySet m i v = some m') :
    ∃ j : Nat, m' = m.set j v := by
  simp only [pySet] at h
  split_ifs at h with hc
  all_goals (injection h with h2; exact ⟨_, h2.symm⟩)

theorem pySet_ok_of_nonneg {m m' : List Int} {i v : Int} (h0 : 0 ≤ i)
    (h : pySet m i v = some m') : m' = m.set i.toNat v ∧ i < (m.length : Int) := by
  simp only [pySet] at h
  rw [if_neg (not_lt.2 h0)] at h
  split_ifs at h with hc
  injection h with h2
  exact ⟨h2.symm, hc.2⟩

theorem pySet_natCast_ok {m m' : List Int} {n : Nat} {v : Int}
    (h : pySet m (n : Int) v = some m') : m' = m.set n v := by
  obtain ⟨h1, -⟩ := pySet_ok_of_nonneg (by omega) h
  rw [h1, Int.toNat_natCast]

theorem read_bits_lt (vm : VirtualMachine) (s L : Nat) : read_bits vm s L < 2 ^ L := by
  simp only [read_bits]
  rw [Nat.shiftLeft_eq, one_mul, Nat.and_pow_two_sub_one_eq_mod]
  exact Nat.mod_lt _ (Nat.two_pow_pos L)

theorem set_frame (m : List Int) (t : Nat) (v : Int) (j : Nat) (hj : j ≠ t) :
    (m.set t v).get? j = m.get? j := by
  rw [List.get?_eq_getElem?, List.get?_eq_getElem?, List.getElem?_set_ne (Ne.symm hj)]

/-- C8: when the 7-bit opcode at the current PC is none of 111, 40, 101, 68,
`step` fails with the unknown-opcode error carrying that opcode and the
(unadvanced) PC, producing no new machine state, so PC and data memory are
untouched; and a failing run is exactly a chain of successful steps — whose
memory mutations persist — followed by one failing step. -/
theorem C8_unknown_opcode :
    (∀ vm : VirtualMachine, vm.pc < vm.code_memory.length →
      read_bits vm 0 7 ≠ 111 → read_bits vm 0 7 ≠ 40 →
      read_bits vm 0 7 ≠ 101 → read_bits vm 0 7 ≠ 68 →
      step vm = .error (.unknownOpcode (read_bits vm 0 7) vm.pc)) ∧
    (∀ (fuel : Nat) (vm : VirtualMachine) (e : VMError),
      runAux fuel vm = .error e →
      ∃ vm', StepsTo vm vm' ∧ step vm' = .error e) := by
  constructor
  · intro vm hpc h111 h40 h101 h68
    simp only [step]
    rw [if_neg (by omega), if_neg h111, if_neg h40, if_neg h101, if_neg h68]
  · intro fuel
    induction fuel with
    | zero =>
      intro vm e h
      exact Except.noConfusion h
    | succ fuel ih =>
      intro vm e h
      simp only [runAux] at h
      cases hs : step vm with
      | error e2 =>
        rw [hs] at h
        injection h with h2
        subst h2
        exact ⟨vm, Relation.ReflTransGen.refl, hs⟩
      | ok o =>
        rw [hs] at h
        cases o with
        | none => exact Except.noConfusion h
        | some vm2 =>
          obtain ⟨vm', hsteps, herr⟩ := ih vm2 e h
          exact ⟨vm', Relation.ReflTransGen.head hs hsteps, herr⟩

/-- Witness for C8: a 1-byte binary whose opcode field reads 2 makes `step`
fail with the unknown-opcode error at PC 0. -/
theorem C8_unknown_opcode_witness :
    step ⟨[], [2], 0⟩ = .error (.unknownOpcode (read_bits ⟨[], [2], 0⟩ 0 7) 0) :=
  C8_unknown_opcode.1 ⟨[], [2], 0⟩ (by decide) (by decide) (by decide)
    (by decide) (by decide)

/-- C9: every successfully executed instruction writes exactly one data-memory
cell — `memory[address]` for LoadConst, `memory[dst_addr]` for ReadMem and
WriteMem, the effective result address for Gte — and leaves every other
data-memory cell, the memory length, and the instruction buffer unchanged
(stated for machine states whose memory holds no negative values, which is
every reachable state). -/
theorem C9_frame_effect (vm vm' : VirtualMachine)
    (hmem : ∀ x ∈ vm.data_memory, 0 ≤ x)
    (hstep : step vm = .ok (some vm')) :
    vm'.code_memory = vm.code_memory ∧
      vm'.data_memory.length = vm.data_memory.length ∧
      ∃ (t : Nat) (v : Int),
        vm'.data_memory = vm.data_memory.set t v ∧
        (∀ j : Nat, j ≠ t → vm'.data_memory.get? j = vm.data_memory.get? j) ∧
        ((read_bits vm 0 7 = 111 → t = read_bits vm 18 26) ∧
         (read_bits vm 0 7 = 40 → t = read_bits vm 41 26) ∧
         (read_bits vm 0 7 = 101 → t = read_bits vm 33 26) ∧
         (read_bits vm 0 7 = 68 → ∃ bR : Int,
            pyGet vm.data_memory ((read_bits vm 67 26 : Nat) : Int) = some bR ∧
            t = (bR + ((read_bits vm 93 8 : Nat) : Int)).toNat)) := by
  simp only [step] at hstep
  split_ifs at hstep with hhalt h111 h40 h101 h68
  · simp at hstep
  · cases hx : execute_load_const vm with
    | error e => rw [hx] at hstep; simp [Except.map] at hstep
    | ok w =>
      obtain ⟨mem, hset, rfl⟩ := execute_load_const_ok hx
      rw [hx] at hstep
      simp only [Except.map, Except.ok.injEq, Option.some.injEq] at hstep
      subst hstep
      have hm := pySet_natCast_ok hset
      refine ⟨rfl, by simp [hm], read_bits vm 18 26, _, hm, ?_, ?_, ?_, ?_, ?_⟩
      · intro j hj
        rw [hm]
        exact set_frame _ _ _ _ hj
      · intro _; rfl
      · intro hx2; rw [h111] at hx2; exact absurd hx2 (by decide)
      · intro hx2; rw [h111] at hx2; exact absurd hx2 (by decide)
      · intro hx2; rw [h111] at hx2; exact absurd hx2 (by decide)
  · cases hx : execute_read_mem vm with
    | error e => rw [hx] at hstep; simp [Except.map] at hstep
    | ok w =>
      obtain ⟨base, value, mem, hbase, hvalue, hset, rfl⟩ := execute_read_mem_ok hx
      rw [hx] at hstep
      simp only [Except.map, Except.ok.injEq, Option.some.injEq] at hstep
      subst hstep
      have hm := pySet_natCast_ok hset
      refine ⟨rfl, by simp [hm], read_bits vm 41 26, _, hm, ?_, ?_, ?_, ?_, ?_⟩
      · intro j hj
        rw [hm]
        exact set_frame _ _ _ _ hj
      · intro hx2; rw [h40] at hx2; exact absurd hx2 (by decide)
      · intro _; rfl
      · intro hx2; rw [h40] at hx2; exact absurd hx2 (by decide)
      · intro hx2; rw [h40] at hx2; exact absurd hx2 (by decide)
  · cases hx : execute_write_mem vm with
    | error e => rw [hx] at hstep; simp [Except.map] at hstep
    | ok w =>
      obtain ⟨value, mem, hvalue, hset, rfl⟩ := execute_write_mem_ok hx
      rw [hx] at hstep
      simp only [Except.map, Except.ok.injEq, Option.some.injEq] at hstep
      subst hstep
      have hm := pySet_natCast_ok hset
      refine ⟨rfl, by simp [hm], read_bits vm 33 26, _, hm, ?_, ?_, ?_, ?_, ?_⟩
      · intro j hj
        rw [hm]
        exact set_frame _ _ _ _ hj
      · intro hx2; rw [h101] at hx2; exact absurd hx2 (by decide)
      · intro hx2; rw [h101] at hx2; exact absurd hx2 (by decide)
      · intro _; rfl
      · intro hx2; rw [h101] at hx2; exact absurd hx2 (by decide)
  · cases hx : execute_gte vm with
    | error e => rw [hx] at hstep; simp [Except.map] at hstep
    | ok w =>
      obtain ⟨b1, bR, op1, op2, mem, hb1, hbR, hop1, hop2, hset, rfl⟩ := execute_gte_ok hx
      rw [hx] at hstep
      simp only [Except.map, Except.ok.injEq, Option.some.injEq] at hstep
      subst hstep
      have hbRpos : 0 ≤ bR := hmem bR (pyGet_mem hbR)
      obtain ⟨hm, -⟩ := pySet_ok_of_nonneg (by omega) hset
      refine ⟨rfl, by simp [hm],
        (bR + ((read_bits vm 93 8 : Nat) : Int)).toNat, _, hm, ?_, ?_, ?_, ?_, ?_⟩
      · intro j hj
        rw [hm]
        exact set_frame _ _ _ _ hj
      · intro hx2; rw [h68] at hx2; exact absurd hx2 (by decide)
      · intro hx2; rw [h68] at hx2; exact absurd hx2 (by decide)
      · intro hx2; rw [h68] at hx2; exact absurd hx2 (by decide)
      · intro _; exact ⟨bR, hbR, rfl⟩

/-- Witness for C9: the single LoadConst step from the C7 scenario leaves the
instruction buffer unchanged. -/
theorem C9_frame_effect_witness :
    (⟨[7, 0], [239, 3, 0, 0, 0, 0], 6⟩ : VirtualMachine).code_memory =
      (⟨[0, 0], [239, 3, 0, 0, 0, 0], 0⟩ : VirtualMachine).code_memory :=
  (C9_frame_effect ⟨[0, 0], [239, 3, 0, 0, 0, 0], 0⟩
    ⟨[7, 0], [239, 3, 0, 0, 0, 0], 6⟩ (by decide) (by decide)).1

theorem step_preserves_range {vm vm' : VirtualMachine}
    (hinv : ∀ x ∈ vm.data_memory, 0 ≤ x ∧ x ≤ 2047)
    (hstep : step vm = .ok (some vm')) :
    ∀ x ∈ vm'.data_memory, 0 ≤ x ∧ x ≤ 2047 := by
  simp only [step] at hstep
  split_ifs at hstep with hhalt h111 h40 h101 h68
  · simp at hstep
  · cases hx : execute_load_const vm with
    | error e => rw [hx] at hstep; simp [Except.map] at hstep
    | ok w =>
      obtain ⟨mem, hset, rfl⟩ := execute_load_const_ok hx
      rw [hx] at hstep
      simp only [Except.map, Except.ok.injEq, Option.some.injEq] at hstep
      subst hstep
      obtain ⟨j, rfl⟩ := pySet_ok hset
      intro x hx2
      rcases List.mem_or_eq_of_mem_set hx2 with hx3 | rfl
      · exact hinv x hx3
      · have := read_bits_lt vm 7 11
        norm_num at this
        omega
  · cases hx : execute_read_mem vm with
    | error e => rw [hx] at hstep; simp [Except.map] at hstep
    | ok w =>
      obtain ⟨base, value, mem, hbase, hvalue, hset, rfl⟩ := execute_read_mem_ok hx
      rw [hx] at hstep
      simp only [Except.map, Except.ok.injEq, Option.some.injEq] at hstep
      subst hstep
      obtain ⟨j, rfl⟩ := pySet_ok hset
      intro x hx2
      rcases List.mem_or_eq_of_mem_set hx2 with hx3 | rfl
      · exact hinv x hx3
      · exact hinv x (pyGet_mem hvalue)
  · cases hx : execute_write_mem vm with
    | error e => rw [hx] at hstep; simp [Except.map] at hstep
    | ok w =>
      obtain ⟨value, mem, hvalue, hset, rfl⟩ := execute_write_mem_ok hx
      rw [hx] at hstep
      simp only [Except.map, Except.ok.injEq, Option.some.injEq] at hstep
      subst hstep
      obtain ⟨j, rfl⟩ := pySet_ok hset
      intro x hx2
      rcases List.mem_or_eq_of_mem_set hx2 with hx3 | rfl
      · exact hinv x hx3
      · exact hinv x (pyGet_mem hvalue)
  · cases hx : execute_gte vm with
    | error e => rw [hx] at hstep; simp [Except.map] at hstep
    | ok w =>
      obtain ⟨b1, bR, op1, op2, mem, hb1, hbR, hop1, hop2, hset, rfl⟩ := execute_gte_ok hx
      rw [hx] at hstep
      simp only [Except.map, Except.ok.injEq, Option.some.injEq] at hstep
      subst hstep
      obtain ⟨j, rfl⟩ := pySet_ok hset
      intro x hx2
      rcases List.mem_or_eq_of_mem_set hx2 with hx3 | rfl
      · exact hinv x hx3
      · by_cases hcmp : op1 ≥ op2 <;> simp [hcmp]

/-- C10: starting from the zero-initialized data memory, after every
error-free sequence of steps of any loaded binary, every data-memory cell
holds an integer in `[0, 2047]`: LoadConst stores an 11-bit decoded constant,
Gte stores 0 or 1, and ReadMem/WriteMem copy values already in memory. -/
theorem C10_memory_range (n : Nat) (code : List Nat) (vm : VirtualMachine)
    (h : StepsTo (load_program (VirtualMachine.init n) code) vm) :
    ∀ x ∈ vm.data_memory, 0 ≤ x ∧ x ≤ 2047 := by
  induction h with
  | refl =>
    intro x hx
    have : x = 0 := List.eq_of_mem_replicate hx
    subst this
    norm_num
  | tail hab hbc ih => exact step_preserves_range ih hbc

/-- Witness for C10: the invariant instantiated on the freshly loaded machine
with a one-cell memory. -/
theorem C10_memory_range_witness : (0 : Int) ≤ 0 ∧ (0 : Int) ≤ 2047 :=
  C10_memory_range 1 [] (load_program (VirtualMachine.init 1) [])
    Relation.ReflTransGen.refl 0 (by simp [load_program, VirtualMachine.init])

end UVM
